import Mathlib

/-!
Verification of the meeting-notes core: the interval-merge algorithm and the
timed-caption state-machine reader from `src/speech_to_text/transcriber.py`,
and the clustering post-processing and relabeling from
`src/speaker_diarization/diarizer.py`.

Python floats are modelled as rationals (ℚ): every arithmetic operation the
code performs on timestamps (subtraction, min/max, division, comparison with
0.5) is exact on the concrete decimal values involved. Python exceptions are
modelled with `Except`: a `raise` site returns `.error`, a `try/except`
handler is a `match` on the result.
-/

deriving instance DecidableEq for Except

namespace MeetingNotes

/-- Python exception classes that the modelled code can raise. -/
inductive PyErr where
  | valueError (msg : String)
  | indexError
  | zeroDivisionError
deriving Repr, DecidableEq

/-- A transcript segment as produced by `_parse_timestamped_output`
(a Python dict with keys start, end, text). Also the `whisper_segments`
input of `_merge_speaker_segments`. -/
structure WhisperSeg where
  start : ℚ
  end_ : ℚ
  text : String
deriving Repr, DecidableEq

/-- A speaker segment as produced by `SpeakerDiarizer.process_audio`
(a Python dict with keys start, end, speaker). -/
structure SpeakerSeg where
  start : ℚ
  end_ : ℚ
  speaker : String
deriving Repr, DecidableEq

/-- The `TranscriptSegment` dataclass of `transcriber.py`. -/
structure TranscriptSegment where
  start : ℚ
  end_ : ℚ
  text : String
  speaker : Option String
deriving Repr, DecidableEq

/-! ## Segment merger (`_merge_speaker_segments`, transcriber.py lines 153-187) -/

/-- The cursor-advance while loop of `_merge_speaker_segments`, recursing on
the list suffix that starts at cursor position `j`:
`while speaker_idx < len(speaker_segments) and speaker_segments[speaker_idx]['end'] <= seg['start']: speaker_idx += 1`. -/
def advanceFrom (s : ℚ) : List SpeakerSeg → Nat → Nat
  | [], j => j
  | sp :: rest, j => if sp.end_ ≤ s then advanceFrom s rest (j + 1) else j

/-- Cursor advance over the full speaker list starting at cursor `j`. -/
def advance (sps : List SpeakerSeg) (s : ℚ) (j : Nat) : Nat :=
  advanceFrom s (sps.drop j) j

/-- Body of the merge loop for one transcript segment, after the cursor has
been advanced to `j`: the bounds check `speaker_idx < len(speaker_segments)`,
the overlap test, and the majority-overlap division. The division raises
`ZeroDivisionError` when the transcript segment has zero duration, exactly as
the Python float division does. -/
def mergeOne (sps : List SpeakerSeg) (seg : WhisperSeg) (j : Nat) :
    Except PyErr (Option String) :=
  match sps[j]? with
  | none => Except.ok none
  | some sp =>
    if sp.start ≤ seg.end_ ∧ seg.start ≤ sp.end_ then
      let overlap_duration := min seg.end_ sp.end_ - max seg.start sp.start
      let seg_duration := seg.end_ - seg.start
      if seg_duration = 0 then Except.error PyErr.zeroDivisionError
      else if overlap_duration / seg_duration > 1/2 then Except.ok (some sp.speaker)
      else Except.ok none
    else Except.ok none

/-- The merge loop: one transcript segment at a time, carrying the shared
speaker cursor `j`. -/
def mergeAux (sps : List SpeakerSeg) : Nat → List WhisperSeg →
    Except PyErr (List TranscriptSegment)
  | _, [] => Except.ok []
  | j, seg :: rest =>
    match mergeOne sps seg (advance sps seg.start j) with
    | Except.error e => Except.error e
    | Except.ok spk =>
      match mergeAux sps (advance sps seg.start j) rest with
      | Except.error e => Except.error e
      | Except.ok tail =>
        Except.ok ({ start := seg.start, end_ := seg.end_, text := seg.text,
                     speaker := spk } :: tail)

/-- `_merge_speaker_segments(whisper_segments, speaker_segments)`. -/
def merge_speaker_segments (ws : List WhisperSeg) (sps : List SpeakerSeg) :
    Except PyErr (List TranscriptSegment) :=
  mergeAux sps 0 ws

/-- The successive values taken by the speaker cursor, one per transcript
segment (the value the cursor has when that segment's single candidate is
examined). -/
def cursorTrace (sps : List SpeakerSeg) : Nat → List WhisperSeg → List Nat
  | _, [] => []
  | j, seg :: rest =>
    advance sps seg.start j :: cursorTrace sps (advance sps seg.start j) rest

/-- The speaker produced by one loop body, ignoring the exceptional case. -/
def okSpeaker : Except PyErr (Option String) → Option String
  | Except.ok o => o
  | Except.error _ => none

example : merge_speaker_segments [⟨0, 10, "hello"⟩] [⟨4, 10, "SPEAKER_00"⟩] =
    Except.ok [⟨0, 10, "hello", some "SPEAKER_00"⟩] := by
  norm_num [merge_speaker_segments, mergeAux, advance, advanceFrom, mergeOne]

/-- The cursor never moves backwards inside one advance step. -/
theorem advanceFrom_le (s : ℚ) : ∀ (l : List SpeakerSeg) (j : Nat),
    j ≤ advanceFrom s l j
  | [], _ => Nat.le_refl _
  | sp :: rest, j => by
    unfold advanceFrom
    by_cases hc : sp.end_ ≤ s
    · simp only [hc, if_true]
      exact Nat.le_trans (Nat.le_succ j) (advanceFrom_le s rest (j + 1))
    · simp [hc]

theorem advance_le (sps : List SpeakerSeg) (s : ℚ) (j : Nat) :
    j ≤ advance sps s j :=
  advanceFrom_le s (sps.drop j) j

/-- Every index passed over by the advance loop holds a speaker segment that
ends at or before `s`. -/
theorem advanceFrom_skipped (s : ℚ) : ∀ (l : List SpeakerSeg) (j k : Nat),
    j ≤ k → k < advanceFrom s l j → ∃ sp, l[k - j]? = some sp ∧ sp.end_ ≤ s := by
  intro l
  induction l with
  | nil => intro j k hjk hk; simp only [advanceFrom] at hk; omega
  | cons sp rest ih =>
    intro j k hjk hk
    unfold advanceFrom at hk
    by_cases hc : sp.end_ ≤ s
    · simp only [hc, if_true] at hk
      rcases Nat.eq_or_lt_of_le hjk with rfl | hlt
      · exact ⟨sp, by simp, hc⟩
      · rcases ih (j + 1) k hlt hk with ⟨sp', hsp', hle⟩
        refine ⟨sp', ?_, hle⟩
        have hidx : k - j = (k - (j + 1)) + 1 := by omega
        rw [hidx]
        simpa using hsp'
    · simp only [hc, if_false] at hk; omega

/-- The speaker segment at the stopping position of the advance loop (if any)
ends strictly after `s`. -/
theorem advanceFrom_stop (s : ℚ) : ∀ (l : List SpeakerSeg) (j : Nat)
    (sp : SpeakerSeg), l[advanceFrom s l j - j]? = some sp → s < sp.end_ := by
  intro l
  induction l with
  | nil => intro j sp h; simp at h
  | cons sp0 rest ih =>
    intro j sp h
    unfold advanceFrom at h
    by_cases hc : sp0.end_ ≤ s
    · simp only [hc, if_true] at h
      have hge : j + 1 ≤ advanceFrom s rest (j + 1) := advanceFrom_le s rest (j + 1)
      have hidx : advanceFrom s rest (j + 1) - j =
          (advanceFrom s rest (j + 1) - (j + 1)) + 1 := by omega
      rw [hidx] at h
      simp only [List.getElem?_cons_succ] at h
      exact ih (j + 1) sp h
    · simp only [hc, if_false, Nat.sub_self, List.getElem?_cons_zero,
        Option.some.injEq] at h
      subst h
      exact lt_of_not_le hc

theorem advance_skipped (sps : List SpeakerSeg) (s : ℚ) (j k : Nat)
    (hjk : j ≤ k) (hk : k < advance sps s j) :
    ∃ sp, sps[k]? = some sp ∧ sp.end_ ≤ s := by
  rcases advanceFrom_skipped s (sps.drop j) j k hjk hk with ⟨sp, hsp, hle⟩
  refine ⟨sp, ?_, hle⟩
  rw [List.getElem?_drop] at hsp
  rwa [Nat.add_sub_cancel' hjk] at hsp

theorem advance_stop (sps : List SpeakerSeg) (s : ℚ) (j : Nat)
    (sp : SpeakerSeg) (h : sps[advance sps s j]? = some sp) : s < sp.end_ := by
  apply advanceFrom_stop s (sps.drop j) j sp
  rw [List.getElem?_drop]
  have heq : j + (advanceFrom s (sps.drop j) j - j) = advanceFrom s (sps.drop j) j :=
    Nat.add_sub_cancel' (advanceFrom_le s (sps.drop j) j)
  rw [heq]
  exact h

/-- The cursor trace of one merge pass is non-decreasing from its start. -/
theorem cursorTrace_chain (sps : List SpeakerSeg) : ∀ (ws : List WhisperSeg)
    (j : Nat), List.Chain (· ≤ ·) j (cursorTrace sps j ws) := by
  intro ws
  induction ws with
  | nil => intro j; exact List.Chain.nil
  | cons seg rest ih =>
    intro j
    exact List.Chain.cons (advance_le sps seg.start j) (ih _)

/-- If the merge loop returns normally, each output speaker is exactly what
the single examined candidate (the speaker segment at the traced cursor
position) yields. -/
theorem mergeAux_map_speaker (sps : List SpeakerSeg) : ∀ (ws : List WhisperSeg)
    (j : Nat) (out : List TranscriptSegment), mergeAux sps j ws = Except.ok out →
    out.map (fun t => t.speaker) =
      (ws.zip (cursorTrace sps j ws)).map
        (fun p => okSpeaker (mergeOne sps p.1 p.2)) := by
  intro ws
  induction ws with
  | nil =>
    intro j out h
    simp only [mergeAux, Except.ok.injEq] at h
    subst h
    simp [cursorTrace]
  | cons seg rest ih =>
    intro j out h
    unfold mergeAux at h
    rcases hm : mergeOne sps seg (advance sps seg.start j) with e | spk <;>
      simp only [hm] at h
    · exact Except.noConfusion h
    · rcases ht : mergeAux sps (advance sps seg.start j) rest with e | tail <;>
        simp only [ht] at h
      · exact Except.noConfusion h
      · simp only [Except.ok.injEq] at h
        subst h
        simp only [List.map_cons, cursorTrace, List.zip_cons_cons, hm, okSpeaker]
        rw [ih _ tail ht]
        rfl

/-- C1: a transcript segment is assigned the speaker of the segment under the
merge cursor exactly when that speaker segment overlaps it and the overlap is
a strict majority of the transcript segment's own duration; in particular a
transcript segment `[0,10]` against speaker `[5,10]` (overlap exactly half)
gets no speaker. -/
theorem c1_merge_majority_overlap (sps : List SpeakerSeg) (j : Nat)
    (seg : WhisperSeg) (sp : SpeakerSeg) (hj : sps[j]? = some sp)
    (hdur : seg.end_ - seg.start ≠ 0) :
    (mergeOne sps seg j = Except.ok (some sp.speaker) ↔
      ((sp.start ≤ seg.end_ ∧ seg.start ≤ sp.end_) ∧
        (min seg.end_ sp.end_ - max seg.start sp.start) / (seg.end_ - seg.start)
          > 1/2)) ∧
    merge_speaker_segments [⟨0, 10, "hello"⟩] [⟨5, 10, "SPEAKER_00"⟩] =
      Except.ok [⟨0, 10, "hello", none⟩] := by
  constructor
  · simp only [mergeOne, hj]
    by_cases hov : sp.start ≤ seg.end_ ∧ seg.start ≤ sp.end_
    · rw [if_pos hov, if_neg hdur]
      by_cases hr : (min seg.end_ sp.end_ - max seg.start sp.start) /
          (seg.end_ - seg.start) > 1/2
      · rw [if_pos hr]
        exact iff_of_true rfl ⟨hov, hr⟩
      · rw [if_neg hr]
        constructor
        · intro hcontr; exact absurd hcontr (by simp)
        · intro hc; exact absurd hc.2 hr
    · rw [if_neg hov]
      constructor
      · intro hcontr; exact absurd hcontr (by simp)
      · intro hc; exact absurd hc.1 hov
  · norm_num [merge_speaker_segments, mergeAux, advance, advanceFrom, mergeOne]

theorem c1_witness :
    mergeOne [⟨4, 10, "SPEAKER_00"⟩] ⟨0, 10, "hello"⟩ 0 =
      Except.ok (some "SPEAKER_00") := by
  have h := c1_merge_majority_overlap [⟨4, 10, "SPEAKER_00"⟩] 0 ⟨0, 10, "hello"⟩
    ⟨4, 10, "SPEAKER_00"⟩ rfl (by norm_num)
  exact h.1.mpr (by norm_num)

/-- If the transcript segment has nonzero duration, the loop body cannot
raise. -/
theorem mergeOne_ok_of_dur_ne (sps : List SpeakerSeg) (seg : WhisperSeg)
    (j : Nat) (hdur : seg.end_ - seg.start ≠ 0) :
    ∃ o, mergeOne sps seg j = Except.ok o := by
  rcases hsp : sps[j]? with _ | sp
  · exact ⟨none, by simp [mergeOne, hsp]⟩
  · simp only [mergeOne, hsp]
    by_cases hov : sp.start ≤ seg.end_ ∧ seg.start ≤ sp.end_
    · rw [if_pos hov, if_neg hdur]
      by_cases hr : (min seg.end_ sp.end_ - max seg.start sp.start) /
          (seg.end_ - seg.start) > 1/2
      · rw [if_pos hr]; exact ⟨some sp.speaker, rfl⟩
      · rw [if_neg hr]; exact ⟨none, rfl⟩
    · rw [if_neg hov]; exact ⟨none, rfl⟩

theorem mergeAux_ok_of_dur_ne (sps : List SpeakerSeg) : ∀ (ws : List WhisperSeg)
    (j : Nat), (∀ t ∈ ws, t.end_ - t.start ≠ 0) →
    ∃ out, mergeAux sps j ws = Except.ok out := by
  intro ws
  induction ws with
  | nil => intro j _; exact ⟨[], rfl⟩
  | cons seg rest ih =>
    intro j h
    rcases mergeOne_ok_of_dur_ne sps seg (advance sps seg.start j)
      (h seg (List.mem_cons_self _ _)) with ⟨o, ho⟩
    rcases ih (advance sps seg.start j)
      (fun t ht => h t (List.mem_cons_of_mem _ ht)) with ⟨tail, htail⟩
    refine ⟨{ start := seg.start, end_ := seg.end_, text := seg.text,
              speaker := o } :: tail, ?_⟩
    simp [mergeAux, ho, htail]

/-- C6 counterexample: a zero-duration transcript segment overlapped by
a speaker segment makes the merge raise `ZeroDivisionError`, so merge is not
total over arbitrary inputs. -/
theorem c6_zero_duration_division :
    merge_speaker_segments [⟨5, 5, "x"⟩] [⟨0, 10, "SPEAKER_00"⟩] =
      Except.error PyErr.zeroDivisionError := by
  norm_num [merge_speaker_segments, mergeAux, advance, advanceFrom, mergeOne]

/-- C6 amended: merge is total (returns a result with partial or no speaker
attribution, and the majority division never divides by zero) for every pair
of input sequences — mismatched, unordered, or not — provided each transcript
segment has nonzero duration. -/
theorem c6_merge_total_of_nonzero_duration (ws : List WhisperSeg)
    (sps : List SpeakerSeg) (h : ∀ t ∈ ws, t.end_ - t.start ≠ 0) :
    ∃ out, merge_speaker_segments ws sps = Except.ok out :=
  mergeAux_ok_of_dur_ne sps ws 0 h

theorem c6_witness :
    ∃ out, merge_speaker_segments [⟨3, 1, "b"⟩, ⟨0, 2, "a"⟩] [⟨9, 9, "S"⟩] =
      Except.ok out := by
  apply c6_merge_total_of_nonzero_duration
  intro t ht
  fin_cases ht <;> norm_num

/-- C7: across one merge pass the speaker cursor is monotonically
non-decreasing (it starts at 0 and never rewinds), the advance loop skips
exactly the speaker segments that end at or before the transcript segment's
start, stops on one that ends strictly after it, and each transcript
segment's speaker is produced by examining only the single candidate at the
traced cursor position. -/
theorem c7_cursor_monotone_one_candidate (ws : List WhisperSeg)
    (sps : List SpeakerSeg) (out : List TranscriptSegment)
    (hok : merge_speaker_segments ws sps = Except.ok out) :
    List.Chain (· ≤ ·) 0 (cursorTrace sps 0 ws) ∧
    (∀ (s : ℚ) (j k : Nat), j ≤ k → k < advance sps s j →
      ∃ sp, sps[k]? = some sp ∧ sp.end_ ≤ s) ∧
    (∀ (s : ℚ) (j : Nat) (sp : SpeakerSeg),
      sps[advance sps s j]? = some sp → s < sp.end_) ∧
    out.map (fun t => t.speaker) =
      (ws.zip (cursorTrace sps 0 ws)).map
        (fun p => okSpeaker (mergeOne sps p.1 p.2)) :=
  ⟨cursorTrace_chain sps ws 0,
   fun s j k hjk hk => advance_skipped sps s j k hjk hk,
   fun s j sp h => advance_stop sps s j sp h,
   mergeAux_map_speaker sps ws 0 out hok⟩

theorem c7_witness :
    List.Chain (· ≤ ·) 0
      (cursorTrace [⟨0, 2, "SPEAKER_00"⟩, ⟨2, 4, "SPEAKER_01"⟩] 0
        [⟨0, 2, "a"⟩, ⟨2, 4, "b"⟩]) :=
  (c7_cursor_monotone_one_candidate [⟨0, 2, "a"⟩, ⟨2, 4, "b"⟩]
    [⟨0, 2, "SPEAKER_00"⟩, ⟨2, 4, "SPEAKER_01"⟩]
    [⟨0, 2, "a", some "SPEAKER_00"⟩, ⟨2, 4, "b", some "SPEAKER_01"⟩]
    (by norm_num [merge_speaker_segments, mergeAux, advance, advanceFrom,
      mergeOne])).1

/-! ## Timed-caption reader (`_parse_vtt_timestamp` and
`_parse_timestamped_output`, transcriber.py lines 45-130)

Python string built-ins are modelled over `List Char` with structural
recursion. The input is the file content already split into lines
(`f.readlines()`); each line is stripped before use, so line terminators are
immaterial. -/

/-- Python `str.strip()`: remove leading and trailing whitespace. -/
def pyStrip (cs : List Char) : List Char :=
  ((cs.dropWhile Char.isWhitespace).reverse.dropWhile Char.isWhitespace).reverse

/-- Does the input begin with the pattern? -/
def startsWithChars : List Char → List Char → Bool
  | [], _ => true
  | _ :: _, [] => false
  | p :: ps, c :: cs => c = p && startsWithChars ps cs

/-- Python `str.split(sep)` for a non-empty separator: non-overlapping
occurrences scanned left to right. Fuelled structural recursion; the input
length is always enough fuel because every step consumes at least one
character. -/
def splitOnGo (sep : List Char) : Nat → List Char → List Char → List (List Char)
  | _, [], acc => [acc.reverse]
  | 0, cs, acc => [acc.reverse ++ cs]
  | fuel + 1, c :: cs, acc =>
    if startsWithChars sep (c :: cs) then
      acc.reverse :: splitOnGo sep fuel ((c :: cs).drop sep.length) []
    else
      splitOnGo sep fuel cs (c :: acc)

def splitOnChars (sep cs : List Char) : List (List Char) :=
  splitOnGo sep cs.length cs []

/-- Decimal value of a digit string. -/
def digitsVal (acc : Nat) : List Char → Nat
  | [] => acc
  | c :: cs => digitsVal (acc * 10 + (c.toNat - '0'.toNat)) cs

/-- The Python builtin `int(str)` as reached from the timestamp code:
optional surrounding whitespace, an optional sign, then one or more ASCII
decimal digits (underscore separators and non-ASCII digits are not
modelled; the code only ever passes pieces of a regex-matched timestamp). -/
def pyInt (s : List Char) : Except PyErr Int :=
  match pyStrip s with
  | [] => Except.error (PyErr.valueError (String.mk s))
  | c :: cs =>
    if c = '-' then
      if !cs.isEmpty && cs.all Char.isDigit then
        Except.ok (-(digitsVal 0 cs : Int))
      else Except.error (PyErr.valueError (String.mk s))
    else if c = '+' then
      if !cs.isEmpty && cs.all Char.isDigit then
        Except.ok ((digitsVal 0 cs : Int))
      else Except.error (PyErr.valueError (String.mk s))
    else
      if (c :: cs).all Char.isDigit then
        Except.ok ((digitsVal 0 (c :: cs) : Int))
      else Except.error (PyErr.valueError (String.mk s))

/-- `_parse_vtt_timestamp`: split on `:`; three parts mean HH:MM:SS.mmm, two
parts mean MM:SS.mmm, anything else raises `ValueError`; the seconds part
splits on `.` into exactly whole seconds and milliseconds or the unpacking
raises `ValueError`. -/
def parse_vtt_timestamp (ts : List Char) : Except PyErr ℚ :=
  match splitOnChars [':'] ts with
  | [h, m, s_ms] =>
    match splitOnChars ['.'] s_ms with
    | [s, ms] => do
      let hv ← pyInt h
      let mv ← pyInt m
      let sv ← pyInt s
      let msv ← pyInt ms
      pure ((hv : ℚ) * 3600 + (mv : ℚ) * 60 + (sv : ℚ) + (msv : ℚ) / 1000)
    | _ => Except.error (PyErr.valueError (String.mk ts))
  | [m, s_ms] =>
    match splitOnChars ['.'] s_ms with
    | [s, ms] => do
      let mv ← pyInt m
      let sv ← pyInt s
      let msv ← pyInt ms
      pure ((mv : ℚ) * 60 + (sv : ℚ) + (msv : ℚ) / 1000)
    | _ => Except.error (PyErr.valueError (String.mk ts))
  | _ => Except.error (PyErr.valueError (String.mk ts))

/-- Match exactly `n` ASCII digits. -/
def matchNDigits : Nat → List Char → Option (List Char × List Char)
  | 0, cs => some ([], cs)
  | _ + 1, [] => none
  | n + 1, c :: cs =>
    if c.isDigit then
      match matchNDigits n cs with
      | some (ds, rest) => some (c :: ds, rest)
      | none => none
    else none

/-- Match one given character. -/
def matchChar (ch : Char) : List Char → Option (List Char × List Char)
  | [] => none
  | c :: cs => if c = ch then some ([c], cs) else none

/-- Match a literal character sequence. -/
def matchLit : List Char → List Char → Option (List Char × List Char)
  | [], cs => some ([], cs)
  | _ :: _, [] => none
  | l :: ls, c :: cs =>
    if c = l then
      match matchLit ls cs with
      | some (m, rest) => some (c :: m, rest)
      | none => none
    else none

/-- Match `\s+` (greedy; the following token is never a whitespace character,
so greediness needs no backtracking). -/
def matchWs1 (cs : List Char) : Option (List Char × List Char) :=
  let w := cs.takeWhile Char.isWhitespace
  if w.isEmpty then none else some (w, cs.drop w.length)

/-- Sequence two matchers, concatenating their matched prefixes. -/
def matchSeq (p q : List Char → Option (List Char × List Char))
    (cs : List Char) : Option (List Char × List Char) :=
  match p cs with
  | none => none
  | some (a, rest) =>
    match q rest with
    | none => none
    | some (b, rest2) => some (a ++ b, rest2)

/-- `(\d{2}:)?\d{2}:\d{2}\.\d{3}`: the engine first tries the greedy optional
hour group, then backtracks to the short form. The two alternatives disagree
on whether position 5 holds `:` or `.`, so committed choice coincides with
regex backtracking. -/
def matchTimestamp (cs : List Char) : Option (List Char × List Char) :=
  match matchSeq (matchNDigits 2) (matchSeq (matchChar ':')
      (matchSeq (matchNDigits 2) (matchSeq (matchChar ':')
      (matchSeq (matchNDigits 2) (matchSeq (matchChar '.')
      (matchNDigits 3)))))) cs with
  | some r => some r
  | none =>
    matchSeq (matchNDigits 2) (matchSeq (matchChar ':')
      (matchSeq (matchNDigits 2) (matchSeq (matchChar '.')
      (matchNDigits 3)))) cs

/-- `re.match` of the timestamp-line pattern
`(\d{2}:)?\d{2}:\d{2}\.\d{3}\s+-->\s+(\d{2}:)?\d{2}:\d{2}\.\d{3}`: anchored at
the start of the line, trailing characters allowed; yields `group(0)`, the
matched prefix. -/
def matchTimestampLine (line : List Char) : Option (List Char) :=
  match matchSeq matchTimestamp (matchSeq matchWs1
      (matchSeq (matchLit ['-', '-', '>'])
      (matchSeq matchWs1 matchTimestamp))) line with
  | some (m, _) => some m
  | none => none

/-- The body of the `find_timestamp` try-block:
`match.group(0).split(' --> ')` and the two timestamp conversions. The `[1]`
access raises `IndexError` when the regex matched with whitespace other than
one single space on each side of the arrow. -/
def parseTsLine (m : List Char) : Except PyErr (ℚ × ℚ) :=
  match (splitOnChars [' ', '-', '-', '>', ' '] m)[1]? with
  | none => Except.error PyErr.indexError
  | some endStr => do
    let s ← parse_vtt_timestamp ((splitOnChars [' ', '-', '-', '>', ' '] m).headD [])
    let e ← parse_vtt_timestamp endStr
    pure (s, e)

/-- The two states of the reader. -/
inductive PState where
  | find_timestamp
  | read_text
deriving Repr, DecidableEq

/-- The loop state of `_parse_timestamped_output`: the machine state, the
pending timestamp pair (`current_segment`; `none` models the empty dict), the
pending text lines (`text_buffer`), and the accumulated segments. -/
structure ParserSt where
  state : PState
  current : Option (ℚ × ℚ)
  text_buffer : List (List Char)
  segments : List WhisperSeg
deriving Repr, DecidableEq

def initSt : ParserSt := ⟨PState.find_timestamp, none, [], []⟩

/-- `" ".join`. -/
def joinSpace : List (List Char) → List Char
  | [] => []
  | [x] => x
  | x :: xs => x ++ ' ' :: joinSpace xs

/-- The segment-emission step shared by the blank-line case and the
end-of-input flush: if a pending timestamp pair and non-empty text exist and
`start >= 0 and end >= start`, append the segment, else drop it with a log
line. -/
def emitPending (cur : Option (ℚ × ℚ)) (buf : List (List Char))
    (segs : List WhisperSeg) : List WhisperSeg :=
  match cur, buf with
  | some (s, e), b :: bs =>
    if 0 ≤ s ∧ s ≤ e then
      segs ++ [{ start := s, end_ := e, text := String.mk (joinSpace (b :: bs)) }]
    else segs
  | _, _ => segs

/-- One iteration of the line loop. The `try/except ValueError/except
Exception` pair around the timestamp conversions catches every modelled
exception and resets `current_segment`; lines that do not match the pattern
are logged and skipped. -/
def processLine (st : ParserSt) (raw : List Char) : Except PyErr ParserSt :=
  match st.state with
  | PState.find_timestamp =>
    match matchTimestampLine (pyStrip raw) with
    | some m =>
      match parseTsLine m with
      | Except.ok se =>
        Except.ok { st with current := some se, text_buffer := [],
                            state := PState.read_text }
      | Except.error _ => Except.ok { st with current := none }
    | none => Except.ok st
  | PState.read_text =>
    if (pyStrip raw).isEmpty then
      Except.ok { state := PState.find_timestamp, current := none,
                  text_buffer := [],
                  segments := emitPending st.current st.text_buffer st.segments }
    else
      Except.ok { st with text_buffer := st.text_buffer ++ [pyStrip raw] }

def parseLinesE : ParserSt → List (List Char) → Except PyErr ParserSt
  | st, [] => Except.ok st
  | st, l :: ls =>
    match processLine st l with
    | Except.ok st' => parseLinesE st' ls
    | Except.error e => Except.error e

/-- End-of-input: flush a pending segment exactly as a blank line would. -/
def flushEOF (st : ParserSt) : List WhisperSeg :=
  match st.state with
  | PState.read_text => emitPending st.current st.text_buffer st.segments
  | PState.find_timestamp => st.segments

/-- `_parse_timestamped_output` on the file content, already split into
lines. -/
def parse_timestamped_output (lines : List (List Char)) :
    Except PyErr (List WhisperSeg) :=
  match parseLinesE initSt lines with
  | Except.ok st => Except.ok (flushEOF st)
  | Except.error e => Except.error e

def toChars (s : String) : List Char := s.toList

unseal Rat.sub Rat.add Rat.mul Rat.inv in
example : parse_timestamped_output
    [toChars "WEBVTT", toChars "", toChars "00:00:01.000 --> 00:00:02.500",
     toChars "Hello world", toChars ""] =
    Except.ok [{ start := 1, end_ := 5/2, text := "Hello world" }] := by decide

/-- Every branch of the line loop returns normally: each raise site sits
under the catch-all handler pair. -/
theorem processLine_ok (st : ParserSt) (raw : List Char) :
    ∃ st', processLine st raw = Except.ok st' := by
  rcases st with ⟨state, cur, buf, segs⟩
  cases state <;> simp only [processLine]
  · split
    · split
      · exact ⟨_, rfl⟩
      · exact ⟨_, rfl⟩
    · exact ⟨_, rfl⟩
  · split
    · exact ⟨_, rfl⟩
    · exact ⟨_, rfl⟩

theorem parseLinesE_ok : ∀ (lines : List (List Char)) (st : ParserSt),
    ∃ st', parseLinesE st lines = Except.ok st' := by
  intro lines
  induction lines with
  | nil => intro st; exact ⟨st, rfl⟩
  | cons l ls ih =>
    intro st
    rcases processLine_ok st l with ⟨st1, h1⟩
    rcases ih st1 with ⟨st2, h2⟩
    exact ⟨st2, by simp [parseLinesE, h1, h2]⟩

unseal Rat.sub Rat.add Rat.mul Rat.inv in
/-- C3: the timed-caption reader never raises: for every input it returns
the recovered segments (possibly none); concretely, a timestamp line whose
arrow is tab-separated (the regex matches but the split-on-one-space raises
IndexError inside the try-block) and a garbage line are both skipped, and a
later well-formed block is still recovered. -/
theorem c3_reader_never_throws :
    (∀ lines, ∃ segs, parse_timestamped_output lines = Except.ok segs) ∧
    parse_timestamped_output
      [toChars "00:01.000\t-->\t00:02.000", toChars "garbage !!",
       toChars "00:03.000 --> 00:04.000", toChars "ok", toChars ""] =
      Except.ok [{ start := 3, end_ := 4, text := "ok" }] := by
  constructor
  · intro lines
    rcases parseLinesE_ok lines initSt with ⟨st', hst⟩
    exact ⟨flushEOF st', by simp [parse_timestamped_output, hst]⟩
  · decide

/-- The emission step only ever appends a segment that passed the
`start >= 0 and end >= start` check. -/
theorem emitPending_inv (cur : Option (ℚ × ℚ)) (buf : List (List Char))
    (segs : List WhisperSeg)
    (h : ∀ seg ∈ segs, 0 ≤ seg.start ∧ seg.start ≤ seg.end_) :
    ∀ seg ∈ emitPending cur buf segs, 0 ≤ seg.start ∧ seg.start ≤ seg.end_ := by
  intro seg hseg
  rcases cur with _ | ⟨s, e⟩
  · simp only [emitPending] at hseg
    exact h seg hseg
  · rcases buf with _ | ⟨b, bs⟩
    · simp only [emitPending] at hseg
      exact h seg hseg
    · simp only [emitPending] at hseg
      by_cases hv : 0 ≤ s ∧ s ≤ e
      · rw [if_pos hv] at hseg
        rcases List.mem_append.mp hseg with h1 | h2
        · exact h seg h1
        · rw [List.mem_singleton] at h2
          subst h2
          exact ⟨hv.1, hv.2⟩
      · rw [if_neg hv] at hseg
        exact h seg hseg

theorem processLine_inv (st : ParserSt) (raw : List Char) (st' : ParserSt)
    (hok : processLine st raw = Except.ok st')
    (h : ∀ seg ∈ st.segments, 0 ≤ seg.start ∧ seg.start ≤ seg.end_) :
    ∀ seg ∈ st'.segments, 0 ≤ seg.start ∧ seg.start ≤ seg.end_ := by
  rcases st with ⟨state, cur, buf, segs⟩
  cases state
  · simp only [processLine] at hok
    rcases hm : matchTimestampLine (pyStrip raw) with _ | m <;>
      simp only [hm] at hok
    · simp only [Except.ok.injEq] at hok
      subst hok
      exact h
    · rcases hp : parseTsLine m with e | se <;> simp only [hp] at hok <;>
        simp only [Except.ok.injEq] at hok <;> subst hok <;> exact h
  · simp only [processLine] at hok
    split at hok <;> simp only [Except.ok.injEq] at hok <;> subst hok
    · exact emitPending_inv cur buf segs h
    · exact h

theorem parseLinesE_inv : ∀ (lines : List (List Char)) (st st' : ParserSt),
    parseLinesE st lines = Except.ok st' →
    (∀ seg ∈ st.segments, 0 ≤ seg.start ∧ seg.start ≤ seg.end_) →
    ∀ seg ∈ st'.segments, 0 ≤ seg.start ∧ seg.start ≤ seg.end_ := by
  intro lines
  induction lines with
  | nil =>
    intro st st' hok h
    simp only [parseLinesE, Except.ok.injEq] at hok
    subst hok
    exact h
  | cons l ls ih =>
    intro st st' hok h
    simp only [parseLinesE] at hok
    rcases h1 : processLine st l with e | st1 <;> simp only [h1] at hok
    · exact Except.noConfusion hok
    · exact ih st1 st' hok (processLine_inv st l st1 h1 h)

theorem flushEOF_inv (st : ParserSt)
    (h : ∀ seg ∈ st.segments, 0 ≤ seg.start ∧ seg.start ≤ seg.end_) :
    ∀ seg ∈ flushEOF st, 0 ≤ seg.start ∧ seg.start ≤ seg.end_ := by
  rcases st with ⟨state, cur, buf, segs⟩
  cases state
  · simpa only [flushEOF] using h
  · simp only [flushEOF]
    exact emitPending_inv cur buf segs h

unseal Rat.sub Rat.add Rat.mul Rat.inv in
/-- C4 counterexample: with equal start and end timestamps the validity check
`end >= start` passes and a zero-length segment is emitted, so the emitted
segments do not all satisfy the strict `start < end`. -/
theorem c4_zero_length_segment :
    parse_timestamped_output
      [toChars "00:01.000 --> 00:01.000", toChars "hi", toChars ""] =
      Except.ok [{ start := 1, end_ := 1, text := "hi" }] ∧
    ¬ ((1:ℚ) < 1) := by decide

/-- C4 amended: every segment emitted by the timed-caption reader satisfies
`start >= 0` and `end >= start` (non-strict: zero-length segments can be
emitted when the two timestamps are equal). -/
theorem c4_emitted_segment_validity (lines : List (List Char))
    (segs : List WhisperSeg)
    (hok : parse_timestamped_output lines = Except.ok segs) :
    ∀ seg ∈ segs, 0 ≤ seg.start ∧ seg.start ≤ seg.end_ := by
  simp only [parse_timestamped_output] at hok
  rcases hps : parseLinesE initSt lines with e | st <;> simp only [hps] at hok
  · exact Except.noConfusion hok
  · simp only [Except.ok.injEq] at hok
    subst hok
    exact flushEOF_inv st (parseLinesE_inv lines initSt st hps
      (by intro seg hseg; cases hseg))

unseal Rat.sub Rat.add Rat.mul Rat.inv in
theorem c4_witness : 0 ≤ (3:ℚ) ∧ (3:ℚ) ≤ 4 :=
  c4_emitted_segment_validity
    [toChars "00:03.000 --> 00:04.000", toChars "ok", toChars ""]
    [{ start := 3, end_ := 4, text := "ok" }] (by decide)
    { start := 3, end_ := 4, text := "ok" } (by decide)

/-! ## Speaker clusterer (`SpeakerDiarizer.process_audio`,
diarizer.py lines 63-166)

Embedding extraction and the sklearn `AgglomerativeClustering(...).fit` call
are external boundaries. The fitted label vector is abstracted as a function
argument `fit`; its `.error` result models `fit` raising `ValueError` (the
only exception class the fallback catches). Embedding rows are given after
the `reshape(-1, 1)` normalization. -/

/-- The two shapes `wav_splits` can take: the mock format, a 2-D numpy array
of (start, end) rows, or the real format, a 1-D array of boundary
timestamps. -/
inductive WavSplits where
  | pairs (l : List (ℚ × ℚ))
  | boundaries (l : List ℚ)
deriving Repr, DecidableEq

/-- `len(wav_splits)`. -/
def WavSplits.len : WavSplits → Nat
  | pairs l => l.length
  | boundaries l => l.length

/-- Interval resolution for loop index `i`: `is_mock_format` requires the
2-D pair shape and `i < len(wav_splits)`, and then row `i` is the interval;
otherwise the 1-D branch needs `i + 1 < len(wav_splits)` and takes
consecutive boundary points; failing both bound checks logs and skips
(`continue`). -/
def intervalAt (ws : WavSplits) (i : Nat) : Option (ℚ × ℚ) :=
  match ws with
  | WavSplits.pairs l => if i < l.length then l[i]? else none
  | WavSplits.boundaries l =>
    if i + 1 < l.length then
      match l[i]?, l[i + 1]? with
      | some s, some e => some (s, e)
      | _, _ => none
    else none

/-- `f'SPEAKER_{label:02d}'` for a non-negative cluster label. -/
def formatSpeakerLabel (n : Nat) : String :=
  "SPEAKER_" ++ (if n < 10 then "0" ++ toString n else toString n)

/-- One iteration of the segment loop: resolve the interval, guard the label
index, and append only if `start < end` (degenerate intervals are logged and
skipped). -/
def segmentAt (labels : List Nat) (ws : WavSplits) (i : Nat) :
    Option SpeakerSeg :=
  match intervalAt ws i with
  | none => none
  | some (s, e) =>
    match labels[i]? with
    | none => none
    | some lab =>
      if s < e then
        some { start := s, end_ := e, speaker := formatSpeakerLabel lab }
      else none

/-- The segment-construction phase of `process_audio`: zero labels
short-circuit to `[]`; otherwise walk
`range(min(num_labels, len(wav_splits) - 1))` — the same bound for both
boundary shapes — collecting the non-skipped segments in order. -/
def emitSegments (labels : List Nat) (ws : WavSplits) : List SpeakerSeg :=
  if labels.length = 0 then []
  else
    (List.range (if 0 < ws.len then min labels.length (ws.len - 1)
                 else 0)).filterMap (segmentAt labels ws)

/-- The distance metric passed to `AgglomerativeClustering`. -/
inductive Metric where
  | cosine
  | euclidean
deriving Repr, DecidableEq

/-- The linkage passed to `AgglomerativeClustering`. -/
inductive Linkage where
  | average
deriving Repr, DecidableEq

/-- The error taxonomy for the clustering pipeline: `EmbeddingError` models
the `ValueError("All speaker embeddings are zero vectors")` raise, and
`ClusteringError` the `ValueError` that escapes when the Euclidean retry also
fails (the original cause is carried along). -/
inductive DiarizeErr where
  | EmbeddingError (msg : String)
  | ClusteringError (msg : String)
deriving Repr, DecidableEq

/-- Zero-vector filtering:
`cont_embeds_2d[np.any(cont_embeds_2d != 0, axis=1)]`. -/
def validEmbeds (embeds : List (List ℚ)) : List (List ℚ) :=
  embeds.filter (fun v => v.any (fun x => x != 0))

/-- The clustering phase of `process_audio` after embedding extraction:
filter zero rows, raise `ValueError` (classified `EmbeddingError`) when none
survive; fit with the cosine metric and average linkage; on `ValueError`,
retry exactly once with the Euclidean metric and average linkage, and let a
failure of the retry propagate (classified `ClusteringError`); finally build
the labeled segments. -/
def process_audio_clustering
    (fit : Metric → Linkage → List (List ℚ) → Except String (List Nat))
    (embeds : List (List ℚ)) (ws : WavSplits) :
    Except DiarizeErr (List SpeakerSeg) :=
  if (validEmbeds embeds).length = 0 then
    Except.error
      (DiarizeErr.EmbeddingError "All speaker embeddings are zero vectors")
  else
    match fit Metric.cosine Linkage.average (validEmbeds embeds) with
    | Except.ok labels => Except.ok (emitSegments labels ws)
    | Except.error _ =>
      match fit Metric.euclidean Linkage.average (validEmbeds embeds) with
      | Except.ok labels => Except.ok (emitSegments labels ws)
      | Except.error e => Except.error (DiarizeErr.ClusteringError e)

/-- `assign_speaker_names`: `None` or an empty mapping (both falsy) return
the segments unchanged; otherwise a new list is built where each segment's
speaker is `name_mapping.get(seg['speaker'], seg['speaker'])`. The dict is
an association list with distinct keys. -/
def assign_speaker_names (segments : List SpeakerSeg)
    (name_mapping : Option (List (String × String))) : List SpeakerSeg :=
  match name_mapping with
  | none => segments
  | some m =>
    if m.isEmpty then segments
    else segments.map (fun seg =>
      { seg with speaker := (m.lookup seg.speaker).getD seg.speaker })

/-- C9: when every embedding row is entirely zero the filter leaves nothing
and the pipeline fails with the embedding error before any clustering is
attempted — the result does not depend on `fit` at all. -/
theorem c9_all_zero_embeddings_fail
    (fit : Metric → Linkage → List (List ℚ) → Except String (List Nat))
    (embeds : List (List ℚ)) (ws : WavSplits)
    (hz : ∀ v ∈ embeds, ∀ x ∈ v, x = 0) :
    process_audio_clustering fit embeds ws =
      Except.error
        (DiarizeErr.EmbeddingError "All speaker embeddings are zero vectors") := by
  have hempty : validEmbeds embeds = [] := by
    rw [validEmbeds, List.filter_eq_nil_iff]
    intro v hv h
    rw [List.any_eq_true] at h
    rcases h with ⟨x, hx, hne⟩
    exact absurd (hz v hv x hx) (by simpa using hne)
  simp [process_audio_clustering, hempty]

theorem c9_witness :
    process_audio_clustering (fun _ _ _ => Except.ok [])
      [[0, 0], [0]] (WavSplits.boundaries []) =
      Except.error
        (DiarizeErr.EmbeddingError "All speaker embeddings are zero vectors") :=
  c9_all_zero_embeddings_fail (fun _ _ _ => Except.ok [])
    [[0, 0], [0]] (WavSplits.boundaries []) (by decide)

/-- C2: if the cosine fit raises `ValueError` on the filtered embeddings,
the clusterer retries exactly once with the Euclidean metric and average
linkage: when the retry succeeds its labels drive a normal result, and when
the retry also fails the failure propagates as the clustering error carrying
the retry's cause. -/
theorem c2_cosine_fallback
    (fit : Metric → Linkage → List (List ℚ) → Except String (List Nat))
    (embeds : List (List ℚ)) (ws : WavSplits) (e : String)
    (hne : validEmbeds embeds ≠ [])
    (hcos : fit Metric.cosine Linkage.average (validEmbeds embeds) =
      Except.error e) :
    (∀ labels, fit Metric.euclidean Linkage.average (validEmbeds embeds) =
        Except.ok labels →
      process_audio_clustering fit embeds ws =
        Except.ok (emitSegments labels ws)) ∧
    (∀ e2, fit Metric.euclidean Linkage.average (validEmbeds embeds) =
        Except.error e2 →
      process_audio_clustering fit embeds ws =
        Except.error (DiarizeErr.ClusteringError e2)) := by
  have hlen : ¬ (validEmbeds embeds).length = 0 := by
    simpa [List.length_eq_zero] using hne
  constructor
  · intro labels heuc
    simp [process_audio_clustering, hlen, hcos, heuc]
  · intro e2 heuc
    simp [process_audio_clustering, hlen, hcos, heuc]

theorem c2_witness :
    process_audio_clustering
      (fun m _ _ => match m with
        | Metric.cosine => Except.error "cosine degenerate"
        | Metric.euclidean => Except.ok [0])
      [[1]] (WavSplits.boundaries [0, 1]) =
      Except.ok (emitSegments [0] (WavSplits.boundaries [0, 1])) :=
  (c2_cosine_fallback
    (fun m _ _ => match m with
      | Metric.cosine => Except.error "cosine degenerate"
      | Metric.euclidean => Except.ok [0])
    [[1]] (WavSplits.boundaries [0, 1]) "cosine degenerate"
    (by decide) rfl).1 [0] rfl

/-- Modelled from the spec, for refutation only: the number of available
intervals per boundary shape as the claim states it — `n_windows` for
explicit (start, end) pairs, `n_windows - 1` for a scalar boundary list. -/
def specAvailableIntervals : WavSplits → Nat
  | WavSplits.pairs l => l.length
  | WavSplits.boundaries l => l.length - 1

/-- C5 counterexample: one explicit (start, end) pair and one cluster label.
By the claim the pair shape makes `n_windows = 1` segments emittable
(`effective_count = min(1, 1) = 1`) and interval `(0, 1)` is valid, yet the
code walks `range(min(1, len(wav_splits) - 1)) = range(0)` and emits
nothing. -/
theorem c5_pairs_counterexample :
    emitSegments [0] (WavSplits.pairs [(0, 1)]) = [] ∧
    min (List.length [0])
      (specAvailableIntervals (WavSplits.pairs [(0, 1)])) = 1 := by
  decide

/-- C5 amended: for both boundary shapes the walk covers exactly the indices
below `min(number_of_cluster_labels, len(wav_splits) - 1)` — the shape only
decides how the interval at each index is resolved, not how many indices are
walked, so with explicit pairs the last pair is never emitted. -/
theorem c5_effective_count (labels : List Nat) (ws : WavSplits)
    (seg : SpeakerSeg) :
    seg ∈ emitSegments labels ws ↔
      ∃ i, i < min labels.length (ws.len - 1) ∧
        segmentAt labels ws i = some seg := by
  have hbound : (if 0 < ws.len then min labels.length (ws.len - 1) else 0) =
      min labels.length (ws.len - 1) := by
    split
    · rfl
    · omega
  simp only [emitSegments, hbound]
  constructor
  · intro hseg
    split at hseg
    · cases hseg
    · rcases List.mem_filterMap.mp hseg with ⟨i, hi, hsome⟩
      exact ⟨i, List.mem_range.mp hi, hsome⟩
  · rintro ⟨i, hi, hsome⟩
    split
    · next hl => rw [hl] at hi; omega
    · exact List.mem_filterMap.mpr ⟨i, List.mem_range.mpr hi, hsome⟩

/-- A two-digit-padded label below 100 matches `SPEAKER_\d{2}` exactly. -/
def speakerPatternMatch (s : String) : Bool :=
  match s.toList with
  | ['S', 'P', 'E', 'A', 'K', 'E', 'R', '_', d1, d2] =>
    d1.isDigit && d2.isDigit
  | _ => false

theorem formatSpeakerLabel_matches : ∀ n, n < 100 →
    speakerPatternMatch (formatSpeakerLabel n) = true := by decide

/-- C10: every segment the clusterer emits satisfies `start < end` strictly,
and (for cluster labels below 100, which `n_clusters = n_speakers` ensures in
every real configuration) its speaker label matches `SPEAKER_\d{2}`;
degenerate intervals are skipped rather than emitted or raised on. -/
theorem c10_segment_invariants (labels : List Nat) (ws : WavSplits)
    (hlab : ∀ l ∈ labels, l < 100) :
    ∀ seg ∈ emitSegments labels ws,
      seg.start < seg.end_ ∧ speakerPatternMatch seg.speaker = true := by
  intro seg hseg
  rcases (c5_effective_count labels ws seg).mp hseg with ⟨i, _, hsome⟩
  simp only [segmentAt] at hsome
  rcases hint : intervalAt ws i with _ | ⟨s, e⟩ <;> simp only [hint] at hsome
  · exact Option.noConfusion hsome
  · rcases hlabi : labels[i]? with _ | lab <;> simp only [hlabi] at hsome
    · exact Option.noConfusion hsome
    · by_cases hlt : s < e
      · rw [if_pos hlt] at hsome
        rw [Option.some.injEq] at hsome
        subst hsome
        refine ⟨hlt, ?_⟩
        apply formatSpeakerLabel_matches
        apply hlab
        exact List.getElem?_mem hlabi
      · rw [if_neg hlt] at hsome
        exact Option.noConfusion hsome

theorem c10_witness : (0:ℚ) < 1 ∧ speakerPatternMatch "SPEAKER_00" = true :=
  c10_segment_invariants [0, 1] (WavSplits.boundaries [0, 1, 2]) (by decide)
    { start := 0, end_ := 1, speaker := "SPEAKER_00" } (by decide)

/-- `List.lookup` hits are members. -/
theorem lookup_mem : ∀ (m : List (String × String)) (k v : String),
    m.lookup k = some v → (k, v) ∈ m := by
  intro m
  induction m with
  | nil => intro k v h; cases h
  | cons p rest ih =>
    intro k v h
    rcases p with ⟨k', v'⟩
    simp only [List.lookup] at h
    cases hbeq : (k == k') <;> simp only [hbeq] at h
    · exact List.mem_cons_of_mem _ (ih k v h)
    · rw [Option.some.injEq] at h
      subst h
      have : k = k' := by simpa using hbeq
      subst this
      exact List.mem_cons_self _ _

/-- C8 counterexample: `SPEAKER_00` is present in the mapping, yet applying
the mapping `{SPEAKER_00 ↦ SPEAKER_01, SPEAKER_01 ↦ Bob}` twice renames the
segment to `Bob`, not to the single-application result `SPEAKER_01`. -/
theorem c8_double_apply_counterexample :
    (List.lookup "SPEAKER_00"
      [("SPEAKER_00", "SPEAKER_01"), ("SPEAKER_01", "Bob")]).isSome = true ∧
    assign_speaker_names
        (assign_speaker_names [⟨0, 1, "SPEAKER_00"⟩]
          (some [("SPEAKER_00", "SPEAKER_01"), ("SPEAKER_01", "Bob")]))
        (some [("SPEAKER_00", "SPEAKER_01"), ("SPEAKER_01", "Bob")]) ≠
      assign_speaker_names [⟨0, 1, "SPEAKER_00"⟩]
        (some [("SPEAKER_00", "SPEAKER_01"), ("SPEAKER_01", "Bob")]) := by
  decide

/-- C8 amended: relabeling is a pure function; an absent or empty mapping
returns the segments unchanged; with a non-empty mapping each position's
speaker is replaced by its mapped value when present and kept otherwise; and
applying the same mapping twice equals applying it once provided no mapped
value is itself remapped (each value the mapping produces is either not a key
or a fixed point). -/
theorem c8_relabel_pure (segments : List SpeakerSeg)
    (m : List (String × String)) :
    assign_speaker_names segments none = segments ∧
    assign_speaker_names segments (some []) = segments ∧
    (m ≠ [] → ∀ (i : Nat) (hi : i < segments.length)
        (hi2 : i < (assign_speaker_names segments (some m)).length),
      (assign_speaker_names segments (some m)).get ⟨i, hi2⟩ =
        { segments.get ⟨i, hi⟩ with
          speaker := (m.lookup (segments.get ⟨i, hi⟩).speaker).getD
            (segments.get ⟨i, hi⟩).speaker }) ∧
    ((∀ p ∈ m, ∀ v, m.lookup p.2 = some v → v = p.2) →
      assign_speaker_names (assign_speaker_names segments (some m)) (some m) =
        assign_speaker_names segments (some m)) := by
  refine ⟨rfl, rfl, ?_, ?_⟩
  · intro hm i hi hi2
    have hne : m.isEmpty = false := by
      cases m
      · exact absurd rfl hm
      · rfl
    simp [assign_speaker_names, hne]
  · intro hfix
    cases hme : m.isEmpty
    · have hstep : ∀ seg : SpeakerSeg,
          { seg with speaker := (m.lookup ((m.lookup seg.speaker).getD
              seg.speaker)).getD ((m.lookup seg.speaker).getD seg.speaker) } =
          { seg with speaker := (m.lookup seg.speaker).getD seg.speaker } := by
        intro seg
        rcases hl : m.lookup seg.speaker with _ | v
        · simp [hl]
        · simp only [hl, Option.getD_some]
          rcases hl2 : m.lookup v with _ | w
          · simp [hl2]
          · have := hfix _ (lookup_mem m seg.speaker v hl) w hl2
            simp [hl2, this]
      simp only [assign_speaker_names, hme, Bool.false_eq_true, if_false,
        List.map_map]
      apply List.map_congr_left
      intro seg _
      exact hstep seg
    · simp [assign_speaker_names, hme]

theorem c8_witness :
    assign_speaker_names
        (assign_speaker_names [⟨0, 1, "SPEAKER_00"⟩]
          (some [("SPEAKER_00", "Alice")]))
        (some [("SPEAKER_00", "Alice")]) =
      assign_speaker_names [⟨0, 1, "SPEAKER_00"⟩]
        (some [("SPEAKER_00", "Alice")]) :=
  (c8_relabel_pure [⟨0, 1, "SPEAKER_00"⟩] [("SPEAKER_00", "Alice")]).2.2.2
    (by decide)

end MeetingNotes
